import Mathlib

/-!
Shallow embedding of the conversational answering engine of
`app/services/ai_service.py` (class `LRUCache` and class `AIService`),
together with proofs about the spec's claims.

Conventions of the embedding:
* Python dict/OrderedDict state is an association list in recency order
  (head = oldest / least-recently-used, last = most-recently-used).
* `random.choice(l)` is modelled by an externally supplied natural number
  `pick`; the chosen element is `l[pick % len l]`, and choosing from an
  empty list is an `IndexError` (`Except.error ()`), exactly as in Python.
* The question-answering pipeline (`self.qa_pipeline(...)`) is an external
  collaborator, modelled as a function parameter that either raises
  (`Except.error ()`) or returns a result shaped like the HuggingFace
  pipeline output: a list of records or a single record, of which the code
  only ever reads the `answer` field.
* Python floats are modelled as exact rationals (`ℚ`): every similarity
  value is a ratio of small natural numbers and the threshold is 7/10.
* The MD5 fingerprint `hashlib.md5(question.lower().strip()).hexdigest()`
  is modelled by the normalized text (lower-cased, stripped) itself: an
  injective stand-in for an (assumed collision-free) digest; no claim
  depends on the digest's byte content, only on its use as a cache key.
-/

/-- Python `d[k]` lookup on an association list (first match). -/
def dictGet {K V : Type} [DecidableEq K] : List (K × V) → K → Option V
  | [], _ => none
  | p :: rest, k => if p.1 = k then some p.2 else dictGet rest k

/-- Python `del d[k]` on an association list (removes the first match). -/
def dictDel {K V : Type} [DecidableEq K] : List (K × V) → K → List (K × V)
  | [], _ => []
  | p :: rest, k => if p.1 = k then rest else p :: dictDel rest k

/-- Python `k in d` membership test. -/
def hasKey {K V : Type} [DecidableEq K] (es : List (K × V)) (k : K) : Bool :=
  es.any (fun p => p.1 = k)

/-- Plain `dict.__setitem__`: overwrite in place if the key is present,
otherwise append at the most-recently-used end. -/
def dictSet {K V : Type} [DecidableEq K] (es : List (K × V)) (k : K) (v : V) :
    List (K × V) :=
  if hasKey es k then es.map (fun p => if p.1 = k then (k, v) else p)
  else es ++ [(k, v)]

/-- `OrderedDict.move_to_end(key)`: move the entry for `key` (keeping its
value) to the most-recently-used end; no-op when the key is absent (the
source only calls it under an `if key in self` guard). -/
def moveToEnd {K V : Type} [DecidableEq K] (es : List (K × V)) (k : K) :
    List (K × V) :=
  match dictGet es k with
  | none => es
  | some v => dictDel es k ++ [(k, v)]

/-- The `LRUCache(OrderedDict)` class of `ai_service.py`: a maximum size
fixed at construction and the ordered entries. -/
structure LRUCache (K V : Type) where
  maxsize : Nat
  entries : List (K × V)
  deriving DecidableEq

/-- `LRUCache.__setitem__`: move an existing key to the end, store the
value, then evict the oldest entry (`next(iter(self))`) whenever the size
exceeds `maxsize`. -/
def LRUCache.setItem {K V : Type} [DecidableEq K] (c : LRUCache K V) (k : K) (v : V) :
    LRUCache K V :=
  let es0 := if hasKey c.entries k then moveToEnd c.entries k else c.entries
  let es1 := dictSet es0 k v
  let es2 :=
    if c.maxsize < es1.length then
      match es1 with
      | [] => []
      | p :: rest => dictDel (p :: rest) p.1
    else es1
  ⟨c.maxsize, es2⟩

/-- `LRUCache` reads: `__getitem__` is *not* overridden in the source, so a
read is the plain dict lookup and touches nothing. -/
def LRUCache.getItem {K V : Type} [DecidableEq K] (c : LRUCache K V) (k : K) : Option V :=
  dictGet c.entries k

/-- A client-visible cache operation: a write `cache[k] = v` or a read of
key `k`. -/
inductive CacheOp (K V : Type) where
  | set : K → V → CacheOp K V
  | get : K → CacheOp K V

/-- Run a sequence of cache operations.  A `get` is `__getitem__`, which the
source does not override, so it leaves the cache state untouched. -/
def runOps {K V : Type} [DecidableEq K] (c : LRUCache K V) : List (CacheOp K V) → LRUCache K V
  | [] => c
  | CacheOp.set k v :: rest => runOps (c.setItem k v) rest
  | CacheOp.get _ :: rest => runOps c rest

/-- An empty cache of the given capacity (`LRUCache(maxsize=m)`). -/
def emptyCache (K V : Type) (m : Nat) : LRUCache K V := ⟨m, []⟩

/-- The `AI behavior tuning` knobs of `app/config.py` that the answering
engine reads (each one env-overridable in the source, hence a parameter). -/
structure Config where
  aiQaTopKPrimary : Nat
  aiQaTopKDiverse : Nat
  aiMaxAnswerLen : Nat
  conversationRecentExchanges : Nat
  repetitionHistoryWindow : Nat
  repetitionSimilarityThreshold : ℚ

/-- The default configuration values of `app/config.py`. -/
def defaultConfig : Config := ⟨3, 5, 150, 3, 5, mkRat 7 10⟩

/-- Python's negative-index slice `l[-n:]`: the last `n` elements, the whole
list when `n = 0` (because `l[-0:]` is `l[0:]`) or when `n ≥ len l`. -/
def pyLastSlice {α : Type} (n : Nat) (l : List α) : List α :=
  if n = 0 then l else l.drop (l.length - n)

/-- Helper for `pySplit`: walk the characters, accumulating the current
word reversed; whitespace closes a word, empty pieces are dropped. -/
def splitWsAux : List Char → List Char → List String
  | [], acc => if acc = [] then [] else [String.mk acc.reverse]
  | c :: cs, acc =>
    if c.isWhitespace then
      if acc = [] then splitWsAux cs []
      else String.mk acc.reverse :: splitWsAux cs []
    else splitWsAux cs (c :: acc)

/-- Python `text.split()`: split on whitespace runs, dropping empty pieces. -/
def pySplit (s : String) : List String :=
  splitWsAux s.data []

/-- Python `text.lower()` (ASCII case mapping, like the questions of this
repository). -/
def pyLower (s : String) : String :=
  String.mk (s.data.map Char.toLower)

/-- Python `text.strip()`: drop whitespace from both ends. -/
def pyStrip (s : String) : String :=
  String.mk (((s.data.dropWhile Char.isWhitespace).reverse.dropWhile
    Char.isWhitespace).reverse)

/-- Helper for `dedupFirst`, carrying the set of already-seen elements. -/
def dedupFirstAux {α : Type} [DecidableEq α] (seen : List α) : List α → List α
  | [] => []
  | x :: xs =>
    if x ∈ seen then dedupFirstAux seen xs else x :: dedupFirstAux (x :: seen) xs

/-- Python `list(dict.fromkeys(l))`: deduplicate preserving first-seen
order. -/
def dedupFirst {α : Type} [DecidableEq α] (l : List α) : List α :=
  dedupFirstAux [] l

/-- `random.choice(l)`: uniform choice, modelled by an external index
`pick`; on an empty list Python raises `IndexError`, here `Except.error`. -/
def randomChoice {α : Type} (pick : Nat) : List α → Except Unit α
  | [] => Except.error ()
  | x :: xs => Except.ok ((x :: xs).getD (pick % (xs.length + 1)) x)

/-- The shape of a `qa_pipeline(...)` result as the source discriminates it:
either a list of records or a single record; the code only ever reads the
`answer` field, so a record is its answer string. -/
inductive QAResult where
  | asList : List String → QAResult
  | asDict : String → QAResult
  deriving DecidableEq

/-- The external Question Answerer: from (question, context, top_k,
max_answer_len) it produces a result or raises. -/
abbrev QA : Type := String → String → Nat → Nat → Except Unit QAResult

/-- The engine's only cross-call state: `self.response_cache`, an `LRUCache`
from question fingerprints to the list of answers previously returned. -/
abbrev ResponseCache : Type := LRUCache String (List String)

namespace AIService

/-- Python `set(text.split())`, as a duplicate-free list of words (first
occurrences kept; only membership and cardinality are ever used of it). -/
def wordSet (text : String) : List String :=
  dedupFirst (pySplit text)

/-- `AIService._calculate_similarity`: Jaccard index of the word sets of the
two texts; `0` when either word set is empty.  `|words1 ∩ words2|` is the
number of (distinct) words of `words1` lying in `words2`, and
`|words1 ∪ words2|` the number of distinct words overall. -/
def calculate_similarity (text1 text2 : String) : ℚ :=
  let words1 := wordSet text1
  let words2 := wordSet text2
  if words1 = [] ∨ words2 = [] then 0
  else mkRat (words1.filter (fun w => w ∈ words2)).length
    (dedupFirst (words1 ++ words2)).length

/-- `AIService._get_question_hash`: fingerprint of the lower-cased,
whitespace-trimmed question (the MD5 digest modelled as the normalized
text itself, see the header comment). -/
def get_question_hash (question : String) : String :=
  pyStrip (pyLower question)

/-- `AIService._is_repetitive_question`: false on an empty (or omitted)
history, else true iff some question of the last
`REPETITION_HISTORY_WINDOW` turns has similarity to the lower-cased
incoming question strictly above `REPETITION_SIMILARITY_THRESHOLD`. -/
def is_repetitive_question (cfg : Config) (question : String)
    (conversation_history : Option (List (String × String))) : Bool :=
  match conversation_history with
  | none => false
  | some [] => false
  | some history =>
    let recent_questions :=
      (pyLastSlice cfg.repetitionHistoryWindow history).map Prod.fst
    let question_lower := pyLower question
    recent_questions.any (fun recent_q =>
      decide (cfg.repetitionSimilarityThreshold <
        calculate_similarity question_lower (pyLower recent_q)))

/-- `AIService._build_enhanced_context`: the base context unchanged when the
history is empty or omitted; otherwise the base context followed by the
serialized last `CONVERSATION_RECENT_EXCHANGES` turns. -/
def build_enhanced_context (cfg : Config) (base_context : String)
    (conversation_history : Option (List (String × String))) : String :=
  match conversation_history with
  | none => base_context
  | some [] => base_context
  | some history =>
    let recent_exchanges := pyLastSlice cfg.conversationRecentExchanges history
    let conversation_context := String.intercalate "\n"
      (recent_exchanges.map (fun p =>
        "Previous Question: " ++ p.1 ++ "\nPrevious Answer: " ++ p.2 ++ "\n"))
    base_context ++ "\n\nRecent Conversation Context:\n" ++ conversation_context

/-- The common cache-recording tail of `_select_diverse_response` (lines
277–279) and `_generate_diverse_response` (lines 240–242): create an empty
list for an absent fingerprint via `LRUCache.__setitem__`, then `.append`
the response in place on the (mutable) stored list — an in-place list
mutation, which goes through no `__setitem__` and moves nothing. -/
def cacheRecord (cache : ResponseCache) (question_hash response : String) :
    ResponseCache :=
  let c1 : ResponseCache :=
    if hasKey cache.entries question_hash then cache
    else LRUCache.setItem cache question_hash []
  ⟨c1.maxsize, c1.entries.map (fun p =>
    if p.1 = question_hash then (p.1, p.2 ++ [response]) else p)⟩

/-- `AIService._select_diverse_response`: deduplicate the candidate answers
preserving first-seen order; with more than one unique text pick at random
among the first two, else take the single one (`unique_candidates[0]`
raises on an empty list); record the choice in the response cache.  Runs
inside the caller's `try`, so an `Except.error` here is an exception the
caller catches. -/
def select_diverse_response (pick : Nat) (cache : ResponseCache)
    (result : QAResult) (question_hash : String) :
    Except Unit (String × ResponseCache) := do
  let response ←
    match result with
    | QAResult.asList rs =>
      let candidates := rs
      let unique_candidates := dedupFirst candidates
      if 1 < unique_candidates.length then
        randomChoice pick (unique_candidates.take 2)
      else
        match unique_candidates with
        | [] => Except.error ()
        | u :: _ => Except.ok u
    | QAResult.asDict a => Except.ok a
  Except.ok (response, cacheRecord cache question_hash response)

/-- `AIService._generate_diverse_response`: for a fingerprint with more than
one cached answer, pick at random among the cached answers other than the
most recent one and return it — this runs *before* the `try` block, so the
`IndexError` that `random.choice` raises on an empty list propagates
(`Except.error`).  Otherwise call the Question Answerer with the wider
`top_k`, pick among the first three candidates, record and return; any
exception inside the `try` becomes the fixed phrase
"I understand you're asking about this topic." with the cache untouched. -/
def generate_diverse_response (cfg : Config) (qa : QA) (pick : Nat)
    (cache : ResponseCache) (question context question_hash : String) :
    Except Unit (String × ResponseCache) :=
  let tryPart : String × ResponseCache :=
    match qa question context cfg.aiQaTopKDiverse cfg.aiMaxAnswerLen with
    | Except.error _ => ("I understand you're asking about this topic.", cache)
    | Except.ok (QAResult.asList rs) =>
      let slice_end := min rs.length 3
      match randomChoice pick (rs.take slice_end) with
      | Except.error _ => ("I understand you're asking about this topic.", cache)
      | Except.ok response => (response, cacheRecord cache question_hash response)
    | Except.ok (QAResult.asDict a) => (a, cacheRecord cache question_hash a)
  if hasKey cache.entries question_hash then
    let cached_responses := (dictGet cache.entries question_hash).getD []
    if 1 < cached_responses.length then
      match randomChoice pick
          (cached_responses.filter (fun r => ¬ r = cached_responses.getLastD "")) with
      | Except.error e => Except.error e
      | Except.ok r => Except.ok (r, cache)
    else Except.ok tryPart
  else Except.ok tryPart

/-- The primary (non-repetitive) path of `answer_question_with_context`: the
`try` block calling the Question Answerer with the narrower `top_k` and
delegating to `_select_diverse_response`; any exception inside becomes the
fixed apology string with the cache untouched. -/
def primaryAnswer (cfg : Config) (qa : QA) (pick : Nat) (cache : ResponseCache)
    (question context question_hash : String) :
    String × ResponseCache :=
  match qa question context cfg.aiQaTopKPrimary cfg.aiMaxAnswerLen with
  | Except.error _ =>
    ("I apologize, but I'm having trouble processing your question right now.", cache)
  | Except.ok result =>
    match select_diverse_response pick cache result question_hash with
    | Except.error _ =>
      ("I apologize, but I'm having trouble processing your question right now.", cache)
    | Except.ok (response, cache2) => (response, cache2)

/-- `AIService.answer_question_with_context`: build the enhanced context,
fingerprint the question, and route to the diverse path when the question
is repetitive (note: *outside* any `try`) or to the primary path
otherwise.  The result is the answer string paired with the new response
cache, or `Except.error` when an exception escapes to the caller. -/
def answer_question_with_context (cfg : Config) (qa : QA) (pick : Nat)
    (cache : ResponseCache) (question base_context : String)
    (conversation_history : Option (List (String × String))) :
    Except Unit (String × ResponseCache) :=
  let enhanced_context := build_enhanced_context cfg base_context conversation_history
  let question_hash := get_question_hash question
  if is_repetitive_question cfg question conversation_history then
    generate_diverse_response cfg qa pick cache question enhanced_context question_hash
  else
    Except.ok (primaryAnswer cfg qa pick cache question enhanced_context question_hash)

end AIService

/-- A Question Answerer that always returns the single candidate list
`[("42", 0.9)]` (the confidence is never read by the engine). -/
def qaConst42 : QA := fun _ _ _ _ => Except.ok (QAResult.asList ["42"])

/-- A Question Answerer whose every call raises. -/
def qaAlwaysRaises : QA := fun _ _ _ _ => Except.error ()

/-- Insert 100 distinct fingerprints (modelled as the numbers 0–99) into a
cache. -/
def insertFirstHundred : List (CacheOp Nat Nat) :=
  (List.range 100).map (fun i => CacheOp.set i i)

/-- Scenario: insert fingerprints 0–99, then *read* fingerprint 0, then
insert the 101st fingerprint. -/
def opsWithRead : List (CacheOp Nat Nat) :=
  insertFirstHundred ++ [CacheOp.get 0, CacheOp.set 100 100]

/-- Scenario: insert fingerprints 0–99, then *write* fingerprint 0 again,
then insert the 101st fingerprint. -/
def opsWithRewrite : List (CacheOp Nat Nat) :=
  insertFirstHundred ++ [CacheOp.set 0 0, CacheOp.set 100 100]

/-- The guard of the diverse path's cache short-circuit: the fingerprint is
cached with more than one stored answer, so `_generate_diverse_response`
returns before ever calling the Question Answerer. -/
def cachedAlternativesReady (cache : ResponseCache) (question_hash : String) : Prop :=
  hasKey cache.entries question_hash = true ∧
  1 < ((dictGet cache.entries question_hash).getD []).length

instance (cache : ResponseCache) (question_hash : String) :
    Decidable (cachedAlternativesReady cache question_hash) :=
  inferInstanceAs (Decidable (_ ∧ _))

theorem hasKey_iff_isSome {K V : Type} [DecidableEq K] (es : List (K × V)) (k : K) :
    hasKey es k = true ↔ (dictGet es k).isSome = true := by
  induction es with
  | nil => simp [hasKey, dictGet]
  | cons p rest ih =>
    by_cases h : p.1 = k
    · simp [hasKey, dictGet, h]
    · simpa [hasKey, dictGet, h] using ih

theorem dictDel_length {K V : Type} [DecidableEq K] (es : List (K × V)) (k : K)
    (h : hasKey es k = true) : (dictDel es k).length + 1 = es.length := by
  induction es with
  | nil => simp [hasKey] at h
  | cons p rest ih =>
    by_cases hp : p.1 = k
    · simp [dictDel, hp]
    · have h' : hasKey rest k = true := by simpa [hasKey, hp] using h
      simpa [dictDel, hp] using ih h'

theorem dictSet_length_present {K V : Type} [DecidableEq K] (es : List (K × V)) (k : K)
    (v : V) (h : hasKey es k = true) : (dictSet es k v).length = es.length := by
  simp [dictSet, h]

theorem dictSet_length_absent {K V : Type} [DecidableEq K] (es : List (K × V)) (k : K)
    (v : V) (h : hasKey es k = false) : (dictSet es k v).length = es.length + 1 := by
  simp [dictSet, h]

theorem moveToEnd_length {K V : Type} [DecidableEq K] (es : List (K × V)) (k : K) :
    (moveToEnd es k).length = es.length := by
  unfold moveToEnd
  cases hget : dictGet es k with
  | none => rfl
  | some v =>
    have hk : hasKey es k = true := (hasKey_iff_isSome es k).mpr (by simp [hget])
    have := dictDel_length es k hk
    simp only [List.length_append, List.length_cons, List.length_nil]
    omega

theorem hasKey_moveToEnd {K V : Type} [DecidableEq K] (es : List (K × V)) (k : K) :
    hasKey (moveToEnd es k) k = hasKey es k := by
  unfold moveToEnd
  cases hget : dictGet es k with
  | none => rfl
  | some v =>
    have hk : hasKey es k = true := (hasKey_iff_isSome es k).mpr (by simp [hget])
    rw [hk]
    simp [hasKey, List.any_append]

theorem setItem_maxsize {K V : Type} [DecidableEq K] (c : LRUCache K V) (k : K) (v : V) :
    (c.setItem k v).maxsize = c.maxsize := rfl

theorem setItem_length_le {K V : Type} [DecidableEq K] (c : LRUCache K V) (k : K) (v : V)
    (h : c.entries.length ≤ c.maxsize) : (c.setItem k v).entries.length ≤ c.maxsize := by
  unfold LRUCache.setItem
  dsimp only
  by_cases hk : hasKey c.entries k = true
  · rw [if_pos hk]
    have h0 : hasKey (moveToEnd c.entries k) k = true :=
      (hasKey_moveToEnd c.entries k).trans hk
    have hcond : ¬ c.maxsize < (dictSet (moveToEnd c.entries k) k v).length := by
      rw [dictSet_length_present _ _ _ h0, moveToEnd_length]
      omega
    rw [if_neg hcond, dictSet_length_present _ _ _ h0, moveToEnd_length]
    exact h
  · have hk' : hasKey c.entries k = false := by simpa using hk
    rw [if_neg hk]
    by_cases hlt : c.maxsize < (dictSet c.entries k v).length
    · rw [if_pos hlt]
      cases hes : dictSet c.entries k v with
      | nil =>
        rw [hes] at hlt
        simp at hlt
      | cons p rest =>
        show (dictDel (p :: rest) p.1).length ≤ c.maxsize
        have hdel : dictDel (p :: rest) p.1 = rest := by simp [dictDel]
        rw [hdel]
        have hlen := dictSet_length_absent c.entries k v hk'
        rw [hes] at hlen hlt
        simp only [List.length_cons] at hlen hlt
        omega
    · rw [if_neg hlt]
      omega

theorem runOps_maxsize {K V : Type} [DecidableEq K] (ops : List (CacheOp K V))
    (c : LRUCache K V) : (runOps c ops).maxsize = c.maxsize := by
  induction ops generalizing c with
  | nil => rfl
  | cons op rest ih =>
    cases op with
    | set k v => simpa [runOps] using (ih (c.setItem k v)).trans (setItem_maxsize c k v)
    | get k => simpa [runOps] using ih c

theorem runOps_length_le {K V : Type} [DecidableEq K] (ops : List (CacheOp K V))
    (c : LRUCache K V) (h : c.entries.length ≤ c.maxsize) :
    (runOps c ops).entries.length ≤ c.maxsize := by
  induction ops generalizing c with
  | nil => simpa [runOps] using h
  | cons op rest ih =>
    cases op with
    | set k v =>
      have h1 : (c.setItem k v).entries.length ≤ (c.setItem k v).maxsize := by
        rw [setItem_maxsize]
        exact setItem_length_le c k v h
      simpa [runOps, setItem_maxsize] using ih (c.setItem k v) h1
    | get k => simpa [runOps] using ih c h

theorem setItem_full_new {K V : Type} [DecidableEq K] (c : LRUCache K V) (k : K) (v : V)
    (hfull : c.entries.length = c.maxsize) (hnew : hasKey c.entries k = false)
    (hpos : 0 < c.maxsize) :
    (c.setItem k v).entries = c.entries.tail ++ [(k, v)] ∧
    (c.setItem k v).entries.length = c.maxsize := by
  have hk : ¬ hasKey c.entries k = true := by simp [hnew]
  have hset : dictSet c.entries k v = c.entries ++ [(k, v)] := by simp [dictSet, hnew]
  obtain ⟨p, rest, hce⟩ : ∃ p rest, c.entries = p :: rest := by
    cases hce : c.entries with
    | nil =>
      rw [hce] at hfull
      simp only [List.length_nil] at hfull
      omega
    | cons p rest => exact ⟨p, rest, rfl⟩
  have hlt : c.maxsize < (dictSet c.entries k v).length := by
    rw [hset]
    simp only [List.length_append, List.length_cons, List.length_nil]
    omega
  have hsc : dictSet c.entries k v = p :: (rest ++ [(k, v)]) := by
    rw [hset, hce]
    rfl
  have hdel : dictDel (p :: (rest ++ [(k, v)])) p.1 = rest ++ [(k, v)] := by
    simp [dictDel]
  unfold LRUCache.setItem
  dsimp only
  rw [if_neg hk, if_pos hlt, hsc]
  constructor
  · show dictDel (p :: (rest ++ [(k, v)])) p.1 = c.entries.tail ++ [(k, v)]
    rw [hdel, hce]
    rfl
  · show (dictDel (p :: (rest ++ [(k, v)])) p.1).length = c.maxsize
    rw [hdel]
    have hcl : c.entries.length = rest.length + 1 := by rw [hce]; rfl
    simp only [List.length_append, List.length_cons, List.length_nil]
    omega

theorem mem_dedupFirstAux {α : Type} [DecidableEq α] (l : List α) :
    ∀ (seen : List α) (a : α), a ∈ dedupFirstAux seen l ↔ a ∈ l ∧ a ∉ seen := by
  induction l with
  | nil => intro seen a; simp [dedupFirstAux]
  | cons x xs ih =>
    intro seen a
    by_cases hx : x ∈ seen
    · rw [dedupFirstAux, if_pos hx, ih]
      constructor
      · rintro ⟨ha, hs⟩
        exact ⟨List.mem_cons_of_mem x ha, hs⟩
      · rintro ⟨ha, hs⟩
        rcases List.mem_cons.mp ha with rfl | ha'
        · exact absurd hx hs
        · exact ⟨ha', hs⟩
    · rw [dedupFirstAux, if_neg hx]
      constructor
      · intro ha
        rcases List.mem_cons.mp ha with rfl | ha'
        · exact ⟨List.mem_cons_self a xs, hx⟩
        · rcases (ih (x :: seen) a).mp ha' with ⟨h1, h2⟩
          refine ⟨List.mem_cons_of_mem x h1, fun hs => h2 (List.mem_cons_of_mem x hs)⟩
      · rintro ⟨ha, hs⟩
        rcases List.mem_cons.mp ha with rfl | ha'
        · exact List.mem_cons_self a _
        · by_cases hax : a = x
          · subst hax
            exact List.mem_cons_self a _
          · refine List.mem_cons_of_mem x ((ih (x :: seen) a).mpr ⟨ha', ?_⟩)
            intro hmem
            rcases List.mem_cons.mp hmem with h | h
            · exact hax h
            · exact hs h

theorem mem_dedupFirst {α : Type} [DecidableEq α] (l : List α) (a : α) :
    a ∈ dedupFirst l ↔ a ∈ l := by
  rw [dedupFirst, mem_dedupFirstAux]
  simp

theorem nodup_dedupFirstAux {α : Type} [DecidableEq α] (l : List α) :
    ∀ seen : List α, (dedupFirstAux seen l).Nodup := by
  induction l with
  | nil => intro seen; simp [dedupFirstAux]
  | cons x xs ih =>
    intro seen
    by_cases hx : x ∈ seen
    · rw [dedupFirstAux, if_pos hx]
      exact ih seen
    · rw [dedupFirstAux, if_neg hx]
      refine List.Nodup.cons ?_ (ih (x :: seen))
      intro hmem
      exact ((mem_dedupFirstAux xs (x :: seen) x).mp hmem).2 (List.mem_cons_self x seen)

theorem nodup_dedupFirst {α : Type} [DecidableEq α] (l : List α) :
    (dedupFirst l).Nodup :=
  nodup_dedupFirstAux l []

theorem dedupFirstAux_congr {α : Type} [DecidableEq α] (l : List α) :
    ∀ (s1 s2 : List α), (∀ a, a ∈ s1 ↔ a ∈ s2) →
      dedupFirstAux s1 l = dedupFirstAux s2 l := by
  induction l with
  | nil => intro s1 s2 _; rfl
  | cons x xs ih =>
    intro s1 s2 hs
    by_cases hx : x ∈ s1
    · rw [dedupFirstAux, if_pos hx, dedupFirstAux, if_pos ((hs x).mp hx)]
      exact ih s1 s2 hs
    · rw [dedupFirstAux, if_neg hx, dedupFirstAux, if_neg (fun h => hx ((hs x).mpr h))]
      refine congrArg (x :: ·) (ih (x :: s1) (x :: s2) ?_)
      intro a
      simp only [List.mem_cons]
      exact or_congr Iff.rfl (hs a)

theorem dedupFirstAux_all_seen {α : Type} [DecidableEq α] (l : List α) :
    ∀ seen : List α, (∀ a ∈ l, a ∈ seen) → dedupFirstAux seen l = [] := by
  induction l with
  | nil => intro seen _; rfl
  | cons x xs ih =>
    intro seen h
    rw [dedupFirstAux, if_pos (h x (List.mem_cons_self x xs))]
    exact ih seen (fun a ha => h a (List.mem_cons_of_mem x ha))

theorem dedupFirstAux_none_seen {α : Type} [DecidableEq α] (l : List α) :
    ∀ seen : List α, l.Nodup → (∀ a ∈ l, a ∉ seen) → dedupFirstAux seen l = l := by
  induction l with
  | nil => intro seen _ _; rfl
  | cons x xs ih =>
    intro seen hnd h
    rw [dedupFirstAux, if_neg (h x (List.mem_cons_self x xs))]
    refine congrArg (x :: ·) (ih (x :: seen) (List.Nodup.of_cons hnd) ?_)
    intro a ha hmem
    rcases List.mem_cons.mp hmem with rfl | hseen
    · exact (List.nodup_cons.mp hnd).1 ha
    · exact h a (List.mem_cons_of_mem x ha) hseen

theorem dedupFirst_eq_self {α : Type} [DecidableEq α] (l : List α) (h : l.Nodup) :
    dedupFirst l = l :=
  dedupFirstAux_none_seen l [] h (fun a _ hmem => by cases hmem)

theorem dedupFirstAux_append {α : Type} [DecidableEq α] (l1 : List α) :
    ∀ (l2 seen : List α),
      dedupFirstAux seen (l1 ++ l2) =
        dedupFirstAux seen l1 ++ dedupFirstAux (l1 ++ seen) l2 := by
  induction l1 with
  | nil => intro l2 seen; rfl
  | cons x xs ih =>
    intro l2 seen
    by_cases hx : x ∈ seen
    · rw [List.cons_append, dedupFirstAux, if_pos hx, dedupFirstAux, if_pos hx, ih]
      refine congrArg _ (dedupFirstAux_congr l2 _ _ ?_)
      intro a
      simp only [List.mem_append, List.mem_cons]
      constructor
      · rintro (h | h)
        · exact Or.inl (Or.inr h)
        · exact Or.inr h
      · rintro (( rfl | h) | h)
        · exact Or.inr hx
        · exact Or.inl h
        · exact Or.inr h
    · rw [List.cons_append, dedupFirstAux, if_neg hx, dedupFirstAux, if_neg hx,
        ih l2 (x :: seen), List.cons_append]
      refine congrArg _ (congrArg _ (dedupFirstAux_congr l2 _ _ ?_))
      intro a
      simp only [List.mem_append, List.mem_cons]
      tauto

theorem dedupFirst_self_append {α : Type} [DecidableEq α] (l : List α) (h : l.Nodup) :
    dedupFirst (l ++ l) = l := by
  rw [dedupFirst, dedupFirstAux_append]
  have h1 : dedupFirstAux ([] : List α) l = l := dedupFirst_eq_self l h
  have h2 : dedupFirstAux (l ++ ([] : List α)) l = [] := by
    refine dedupFirstAux_all_seen l _ ?_
    intro a ha
    simp [ha]
  rw [h1, h2, List.append_nil]

theorem randomChoice_ok {α : Type} (pick : Nat) (l : List α) (h : l ≠ []) :
    ∃ a, randomChoice pick l = Except.ok a ∧ a ∈ l := by
  cases l with
  | nil => exact absurd rfl h
  | cons x xs =>
    refine ⟨(x :: xs).getD (pick % (xs.length + 1)) x, rfl, ?_⟩
    have hlt : pick % (xs.length + 1) < (x :: xs).length := by
      simp only [List.length_cons]
      exact Nat.mod_lt _ (Nat.succ_pos _)
    rw [List.getD_eq_getElem _ _ hlt]
    exact List.getElem_mem hlt

theorem dictGet_map_update_ne {K V : Type} [DecidableEq K] (es : List (K × V)) (h : K)
    (f : V → V) (k : K) (hk : ¬ k = h) :
    dictGet (es.map (fun p => if p.1 = h then (p.1, f p.2) else p)) k = dictGet es k := by
  induction es with
  | nil => rfl
  | cons p rest ih =>
    by_cases hp : p.1 = h
    · have hpk : ¬ p.1 = k := fun hc => hk (hc ▸ hp)
      simp only [List.map_cons, if_pos hp, dictGet, if_neg hpk]
      exact ih
    · by_cases hpk : p.1 = k
      · simp only [List.map_cons, if_neg hp, dictGet, if_pos hpk]
      · simp only [List.map_cons, if_neg hp, dictGet, if_neg hpk]
        exact ih

theorem dictGet_map_update_eq {K V : Type} [DecidableEq K] (es : List (K × V)) (h : K)
    (f : V → V) :
    dictGet (es.map (fun p => if p.1 = h then (p.1, f p.2) else p)) h =
      (dictGet es h).map f := by
  induction es with
  | nil => rfl
  | cons p rest ih =>
    by_cases hp : p.1 = h
    · simp [List.map_cons, if_pos hp, dictGet, hp]
    · simp only [List.map_cons, if_neg hp, dictGet, if_neg hp]
      exact ih

theorem map_fst_map_update {K V : Type} [DecidableEq K] (es : List (K × V)) (h : K)
    (f : V → V) :
    (es.map (fun p => if p.1 = h then (p.1, f p.2) else p)).map Prod.fst =
      es.map Prod.fst := by
  induction es with
  | nil => rfl
  | cons p rest ih =>
    by_cases hp : p.1 = h
    · simp only [List.map_cons, if_pos hp, ih]
    · simp only [List.map_cons, if_neg hp, ih]

set_option maxRecDepth 10000 in
/-- C3 (counterexample): reads do *not* refresh recency.  Insert the 101
distinct fingerprints 0–100 into a capacity-100 cache, reading fingerprint 0
again after the later insertions had begun: contrary to the claim — which
says that after such an access a *different*, least-recently-used
fingerprint is evicted — the evicted entry is still the first-inserted
fingerprint 0. -/
theorem C3_counterexample_read_does_not_protect :
    hasKey (runOps (emptyCache Nat Nat 100) opsWithRead).entries 0 = false := by
  decide

set_option maxRecDepth 10000 in
/-- C3 (amended): the Answer Cache has write-only recency semantics, not
true LRU.  Reading a key is a plain lookup that leaves the cache state
completely unchanged; only writing a key moves it to the most-recently-used
position.  Hence after inserting 101 distinct fingerprints into a
capacity-100 cache the evicted entry is the first-inserted fingerprint even
if it was read again after the second insertion; only if it was *written*
again is a different (the then least-recently-used) fingerprint evicted
instead. -/
theorem C3_amended_write_only_recency :
    (∀ (c : LRUCache Nat Nat) (k : Nat), runOps c [CacheOp.get k] = c) ∧
    hasKey (runOps (emptyCache Nat Nat 100) opsWithRead).entries 0 = false ∧
    (runOps (emptyCache Nat Nat 100) opsWithRead).entries.length = 100 ∧
    hasKey (runOps (emptyCache Nat Nat 100) opsWithRewrite).entries 0 = true ∧
    hasKey (runOps (emptyCache Nat Nat 100) opsWithRewrite).entries 1 = false :=
  ⟨fun _ _ => rfl, by decide, by decide, by decide, by decide⟩

/-- C4: starting from an empty Answer Cache of any capacity `m`, no sequence
of insertions and reads ever leaves more than `m` stored entries; and
inserting a new fingerprint into a full cache (of positive capacity) is
handled by evicting exactly the oldest entry, leaving exactly `m` entries:
the old entries minus the first, plus the new fingerprint at the
most-recently-used end. -/
theorem C4_capacity_never_exceeded :
    (∀ (m : Nat) (ops : List (CacheOp String (List String))),
      (runOps (emptyCache String (List String) m) ops).entries.length ≤ m) ∧
    (∀ (c : ResponseCache) (k : String) (v : List String),
      c.entries.length = c.maxsize → hasKey c.entries k = false → 0 < c.maxsize →
      (c.setItem k v).entries = c.entries.tail ++ [(k, v)] ∧
      (c.setItem k v).entries.length = c.maxsize) := by
  constructor
  · intro m ops
    have h0 : (emptyCache String (List String) m).entries.length ≤
        (emptyCache String (List String) m).maxsize := by
      simp [emptyCache]
    exact runOps_length_le ops (emptyCache String (List String) m) h0
  · intro c k v hfull hnew hpos
    exact setItem_full_new c k v hfull hnew hpos

/-- Witness for C4: a concrete full capacity-2 cache receiving a third
fingerprint. -/
theorem C4_capacity_never_exceeded_witness :
    ((⟨2, [("a", ["x"]), ("b", ["y"])]⟩ : ResponseCache).setItem "c" []).entries =
      [("a", ["x"]), ("b", ["y"])].tail ++ [("c", [])] ∧
    ((⟨2, [("a", ["x"]), ("b", ["y"])]⟩ : ResponseCache).setItem "c" []).entries.length = 2 :=
  C4_capacity_never_exceeded.2 ⟨2, [("a", ["x"]), ("b", ["y"])]⟩ "c" []
    (by decide) (by decide) (by decide)

/-- C6: with the default configuration the repetition detector returns false
for every question when the history is empty (or omitted); otherwise it
returns true iff some question among the last `REPETITION_HISTORY_WINDOW = 5`
turns has Jaccard similarity to the incoming question (both lower-cased)
strictly greater than `REPETITION_SIMILARITY_THRESHOLD = 7/10`. -/
theorem C6_repetition_detector_characterization (question : String)
    (history : List (String × String)) :
    AIService.is_repetitive_question defaultConfig question none = false ∧
    AIService.is_repetitive_question defaultConfig question (some []) = false ∧
    (AIService.is_repetitive_question defaultConfig question (some history) = true ↔
      ∃ p ∈ pyLastSlice 5 history,
        mkRat 7 10 <
          AIService.calculate_similarity (pyLower question) (pyLower p.1)) := by
  refine ⟨rfl, rfl, ?_⟩
  cases history with
  | nil =>
    simp [AIService.is_repetitive_question, pyLastSlice]
  | cons t ts =>
    rw [AIService.is_repetitive_question]
    rw [List.any_eq_true]
    constructor
    · rintro ⟨q', hq', hdec⟩
      rcases List.mem_map.mp hq' with ⟨p, hp, rfl⟩
      exact ⟨p, hp, of_decide_eq_true hdec⟩
    · rintro ⟨p, hp, hlt⟩
      exact ⟨p.1, List.mem_map_of_mem Prod.fst hp, decide_eq_true hlt⟩
    · simp

/-- C9: recording a chosen answer for a fingerprint already present in the
response cache (the shared recording step of both selection paths) keeps the
capacity and the stored fingerprints (in order) unchanged, evicts nothing
(same number of entries), leaves every other fingerprint's stored answer
list untouched, and extends exactly the given fingerprint's list by the one
appended answer at its end. -/
theorem C9_record_existing_fingerprint_frame (cache : ResponseCache)
    (question_hash response : String)
    (h : hasKey cache.entries question_hash = true) :
    (AIService.cacheRecord cache question_hash response).maxsize = cache.maxsize ∧
    (AIService.cacheRecord cache question_hash response).entries.map Prod.fst =
      cache.entries.map Prod.fst ∧
    (AIService.cacheRecord cache question_hash response).entries.length =
      cache.entries.length ∧
    (∀ k : String, ¬ k = question_hash →
      dictGet (AIService.cacheRecord cache question_hash response).entries k =
        dictGet cache.entries k) ∧
    dictGet (AIService.cacheRecord cache question_hash response).entries question_hash =
      (dictGet cache.entries question_hash).map (fun l => l ++ [response]) := by
  have hrec : AIService.cacheRecord cache question_hash response =
      ⟨cache.maxsize, cache.entries.map (fun p =>
        if p.1 = question_hash then (p.1, p.2 ++ [response]) else p)⟩ := by
    rw [AIService.cacheRecord]
    rw [if_pos h]
  rw [hrec]
  refine ⟨rfl, ?_, ?_, ?_, ?_⟩
  · exact map_fst_map_update cache.entries question_hash (fun l => l ++ [response])
  · simp
  · intro k hk
    exact dictGet_map_update_ne cache.entries question_hash
      (fun l => l ++ [response]) k hk
  · exact dictGet_map_update_eq cache.entries question_hash (fun l => l ++ [response])

/-- Witness for C9: appending "B" for a fingerprint already holding ["A"]
in a cache that also holds another fingerprint. -/
theorem C9_record_existing_fingerprint_frame_witness :
    (AIService.cacheRecord (⟨100, [("f", ["A"]), ("g", ["C"])]⟩ : ResponseCache)
        "f" "B").maxsize = 100 ∧
    (AIService.cacheRecord (⟨100, [("f", ["A"]), ("g", ["C"])]⟩ : ResponseCache)
        "f" "B").entries.map Prod.fst = [("f", ["A"]), ("g", ["C"])].map Prod.fst ∧
    (AIService.cacheRecord (⟨100, [("f", ["A"]), ("g", ["C"])]⟩ : ResponseCache)
        "f" "B").entries.length = [("f", ["A"]), ("g", ["C"])].length ∧
    (∀ k : String, ¬ k = "f" →
      dictGet (AIService.cacheRecord (⟨100, [("f", ["A"]), ("g", ["C"])]⟩ : ResponseCache)
        "f" "B").entries k = dictGet [("f", ["A"]), ("g", ["C"])] k) ∧
    dictGet (AIService.cacheRecord (⟨100, [("f", ["A"]), ("g", ["C"])]⟩ : ResponseCache)
        "f" "B").entries "f" = (dictGet [("f", ["A"]), ("g", ["C"])] "f").map
          (fun l => l ++ ["B"]) :=
  C9_record_existing_fingerprint_frame ⟨100, [("f", ["A"]), ("g", ["C"])]⟩ "f" "B"
    (by decide)

/-- C10: calling the orchestrator with the conversation history omitted
(`None`) behaves exactly as with an empty history: the enhanced context is
the base context unchanged, the question is judged non-repetitive, and the
call takes the primary path. -/
theorem C10_none_history_like_empty (cfg : Config) (qa : QA) (pick : Nat)
    (cache : ResponseCache) (question base_context : String) :
    AIService.answer_question_with_context cfg qa pick cache question base_context none =
      AIService.answer_question_with_context cfg qa pick cache question base_context
        (some []) ∧
    AIService.build_enhanced_context cfg base_context none = base_context ∧
    AIService.build_enhanced_context cfg base_context (some []) = base_context ∧
    AIService.is_repetitive_question cfg question none = false ∧
    AIService.is_repetitive_question cfg question (some []) = false ∧
    AIService.answer_question_with_context cfg qa pick cache question base_context none =
      Except.ok (AIService.primaryAnswer cfg qa pick cache question base_context
        (AIService.get_question_hash question)) :=
  ⟨rfl, rfl, rfl, rfl, rfl, rfl⟩

/-- C7 (counterexample): the primary-path Diversity Selector returns the
candidate text verbatim, so with the non-empty candidate list `[""]` (one
candidate whose answer text is the empty string) the returned answer *is*
the empty string, contrary to the claim. -/
theorem C7_counterexample_empty_candidate_text :
    AIService.select_diverse_response 0 (emptyCache String (List String) 100)
      (QAResult.asList [""]) "h" =
    Except.ok ("", (⟨100, [("h", [""])]⟩ : ResponseCache)) := rfl

/-- C7 (amended): for every non-empty list of answer candidates supplied to
the primary path, the selector succeeds and the returned answer is one of
the supplied candidate texts; in particular it is never the empty string
provided no supplied candidate text is itself empty. -/
theorem C7_amended_returns_a_candidate (pick : Nat) (cache : ResponseCache)
    (question_hash : String) (rs : List String) (hne : ¬ rs = [])
    (hall : ∀ r ∈ rs, ¬ r = "") :
    ∃ r cache2,
      AIService.select_diverse_response pick cache (QAResult.asList rs) question_hash =
        Except.ok (r, cache2) ∧ r ∈ rs ∧ ¬ r = "" := by
  have hu : ¬ dedupFirst rs = [] := by
    cases hrs : rs with
    | nil => exact absurd hrs hne
    | cons x xs =>
      intro h0
      have hx : x ∈ dedupFirst (x :: xs) := (mem_dedupFirst _ x).mpr (List.mem_cons_self x xs)
      rw [h0] at hx
      cases hx
  by_cases hlen : 1 < (dedupFirst rs).length
  · have htake : ¬ (dedupFirst rs).take 2 = [] := by
      intro h0
      have := congrArg List.length h0
      simp only [List.length_take, List.length_nil] at this
      omega
    obtain ⟨a, hro, hmem⟩ := randomChoice_ok pick _ htake
    have hars : a ∈ rs :=
      (mem_dedupFirst rs a).mp (List.take_subset 2 (dedupFirst rs) hmem)
    refine ⟨a, AIService.cacheRecord cache question_hash a, ?_, hars, hall a hars⟩
    rw [AIService.select_diverse_response]
    rw [if_pos hlen, hro]
    rfl
  · obtain ⟨u, hd⟩ : ∃ u, dedupFirst rs = [u] := by
      cases hd : dedupFirst rs with
      | nil => exact absurd hd hu
      | cons u us =>
        cases us with
        | nil => exact ⟨u, rfl⟩
        | cons w ws =>
          rw [hd] at hlen
          simp only [List.length_cons] at hlen
          omega
    have hu_mem : u ∈ rs := (mem_dedupFirst rs u).mp (hd ▸ List.mem_cons_self u [])
    refine ⟨u, AIService.cacheRecord cache question_hash u, ?_, hu_mem, hall u hu_mem⟩
    rw [AIService.select_diverse_response]
    rw [hd]
    rw [if_neg (by simp)]
    rfl

/-- Witness for C7 (amended): the single candidate list `["x"]`. -/
theorem C7_amended_returns_a_candidate_witness :
    ∃ r cache2,
      AIService.select_diverse_response 0 (emptyCache String (List String) 100)
        (QAResult.asList ["x"]) "h" = Except.ok (r, cache2) ∧ r ∈ ["x"] ∧ ¬ r = "" :=
  C7_amended_returns_a_candidate 0 (emptyCache String (List String) 100) "h" ["x"]
    (by decide) (by decide)

/-- C8 (counterexample): the string `" "` consisting of one space is a
non-empty question, yet its word set is empty, so the similarity of `" "`
to itself is `0`, not `1`. -/
theorem C8_counterexample_whitespace_question :
    ¬ (" " : String) = "" ∧ ¬ AIService.calculate_similarity " " " " = 1 := by
  constructor
  · decide
  · decide

/-- C8 (amended): for every question with at least one word (non-empty word
set — in particular every non-empty, non-whitespace-only question), the
similarity of the question to itself is exactly 1. -/
theorem C8_amended_self_similarity_one (q : String)
    (h : ¬ AIService.wordSet q = []) :
    AIService.calculate_similarity q q = 1 := by
  rw [AIService.calculate_similarity]
  rw [if_neg (by simp [h])]
  have hnd : (AIService.wordSet q).Nodup := nodup_dedupFirst _
  have hfilter : (AIService.wordSet q).filter
      (fun w => w ∈ AIService.wordSet q) = AIService.wordSet q := by
    rw [List.filter_eq_self]
    intro a ha
    exact decide_eq_true ha
  rw [hfilter, dedupFirst_self_append _ hnd]
  have hlen : ¬ (AIService.wordSet q).length = 0 := by
    intro h0
    exact h (List.eq_nil_of_length_eq_zero h0)
  have hQ : ¬ ((AIService.wordSet q).length : ℚ) = 0 := by
    exact_mod_cast hlen
  rw [Rat.mkRat_eq_div, Int.cast_natCast, div_self hQ]

/-- Witness for C8 (amended): the question `"hi"`. -/
theorem C8_amended_self_similarity_one_witness :
    AIService.calculate_similarity "hi" "hi" = 1 :=
  C8_amended_self_similarity_one "hi" (by decide)

/-- C1 (the code violates the claim): with the fingerprint of "q" holding
the cached answers ["42", "42"] and a history making "q" repetitive, the
diverse path filters the cached answers against the most recent one, gets
an empty list, and `random.choice` raises an uncaught `IndexError` — the
call raises instead of returning a string. -/
theorem C1_uncaught_error_on_duplicate_cached_answers :
    AIService.answer_question_with_context defaultConfig qaConst42 0
      (⟨100, [("q", ["42", "42"])]⟩ : ResponseCache) "q" "ctx" (some [("q", "42")]) =
    Except.error () := rfl

/-- C2 (the code violates the claim): asking the same question "q" three
times with a Question Answerer constantly producing the single candidate
"42", the first two calls return "42" (for every random pick) and build the
cache entry ["42", "42"], but the third call raises an uncaught
`IndexError` instead of returning "42", and the cache never reaches
["42", "42", "42"]. -/
theorem C2_three_identical_questions (pick1 pick2 pick3 : Nat) :
    AIService.answer_question_with_context defaultConfig qaConst42 pick1
        (emptyCache String (List String) 100) "q" "ctx" (some []) =
      Except.ok ("42", (⟨100, [("q", ["42"])]⟩ : ResponseCache)) ∧
    AIService.answer_question_with_context defaultConfig qaConst42 pick2
        (⟨100, [("q", ["42"])]⟩ : ResponseCache) "q" "ctx" (some [("q", "42")]) =
      Except.ok ("42", (⟨100, [("q", ["42", "42"])]⟩ : ResponseCache)) ∧
    AIService.answer_question_with_context defaultConfig qaConst42 pick3
        (⟨100, [("q", ["42", "42"])]⟩ : ResponseCache) "q" "ctx"
        (some [("q", "42"), ("q", "42")]) =
      Except.error () := by
  refine ⟨rfl, ?_, rfl⟩
  show Except.ok ((["42"].getD (pick2 % 1) "42"),
      AIService.cacheRecord ⟨100, [("q", ["42"])]⟩ (AIService.get_question_hash "q")
        (["42"].getD (pick2 % 1) "42")) =
    Except.ok ("42", (⟨100, [("q", ["42", "42"])]⟩ : ResponseCache))
  rw [Nat.mod_one]
  rfl

/-- C5: on either selection path — primary, or diverse without the
cached-alternatives short-circuit (the only diverse case in which the
Question Answerer is called at all) — a Question Answerer whose calls all
raise makes the operation return its path's fixed fallback string with the
response cache exactly as it was before the call. -/
theorem C5_qa_failure_fallback_no_cache_write (cfg : Config) (qa : QA) (pick : Nat)
    (cache : ResponseCache) (question base_context : String)
    (conversation_history : Option (List (String × String)))
    (hqa : ∀ q c tk mal, qa q c tk mal = Except.error ())
    (hnc : ¬ cachedAlternativesReady cache (AIService.get_question_hash question)) :
    AIService.answer_question_with_context cfg qa pick cache question base_context
        conversation_history =
      Except.ok
        ("I apologize, but I'm having trouble processing your question right now.",
          cache) ∨
    AIService.answer_question_with_context cfg qa pick cache question base_context
        conversation_history =
      Except.ok ("I understand you're asking about this topic.", cache) := by
  rw [AIService.answer_question_with_context]
  by_cases hrep : AIService.is_repetitive_question cfg question conversation_history = true
  · rw [if_pos hrep]
    right
    rw [AIService.generate_diverse_response]
    rw [hqa]
    by_cases hk : hasKey cache.entries (AIService.get_question_hash question) = true
    · rw [if_pos hk]
      have hle : ¬ 1 <
          ((dictGet cache.entries (AIService.get_question_hash question)).getD []).length :=
        fun hcontra => hnc ⟨hk, hcontra⟩
      rw [if_neg hle]
    · rw [if_neg hk]
  · rw [if_neg hrep]
    left
    rw [AIService.primaryAnswer, hqa]

/-- Witness for C5: an always-raising Question Answerer on an empty cache. -/
theorem C5_qa_failure_fallback_no_cache_write_witness :
    AIService.answer_question_with_context defaultConfig qaAlwaysRaises 0
        (emptyCache String (List String) 100) "q" "ctx" (some []) =
      Except.ok
        ("I apologize, but I'm having trouble processing your question right now.",
          emptyCache String (List String) 100) ∨
    AIService.answer_question_with_context defaultConfig qaAlwaysRaises 0
        (emptyCache String (List String) 100) "q" "ctx" (some []) =
      Except.ok ("I understand you're asking about this topic.",
        emptyCache String (List String) 100) :=
  C5_qa_failure_fallback_no_cache_write defaultConfig qaAlwaysRaises 0
    (emptyCache String (List String) 100) "q" "ctx" (some [])
    (fun _ _ _ _ => rfl) (by decide)
